import Mathlib

/-!
Verification of the notification-feed engine
(`feedly/feeds/aggregated_feed/notification_feed.py`, class `NotificationFeed`).

The engine is embedded shallowly:

* An aggregated activity group is a record of its identity key (`group`), its
  recency key (`updated_at`, the key the aggregator ranks by), and the two
  optional timestamps `seen_at` / `read_at`.  Timestamps are modelled as `Nat`.
* The per-user world (the feed object together with the backing redis state it
  touches) is a `FeedState`: the ordered timeline, the denormalized count key,
  the log of pubsub publishes, and the log of structural remove/insert batches
  issued against the timeline store.
* The count key holds the decimal text of a non-negative integer
  (`redis.set(count_key, count)` stores `str(count)`); since every write goes
  through `set_denormalized_count`, the raw stored text is always the canonical
  decimal representation of a `Nat`, and string equality of canonical decimals
  coincides with `Nat` equality.  The key is therefore modelled as
  `Option Nat`, `none` standing for an absent key (redis `None`).
* Blocking, the redis lock and wall-clock time are outside the embedding: each
  public operation is modelled as the pure state transformation its critical
  section performs, with `datetime.datetime.today()` passed in as a `now`
  parameter.

Parts of the repository that the class inherits but that are not part of the
file above (the `AggregatedFeed` base class, the timeline storage and the
aggregator) are modelled from the spec; each such definition carries a doc
comment saying so.
-/

/-- An aggregated activity group.  `group` is the identity key (stable across
updates of the same logical group), `updated_at` the recency key used for
ranking, and `seen_at` / `read_at` the optional state timestamps
(`None` in the source is `none` here). -/
structure AggregatedActivity where
  group : Nat
  updated_at : Nat
  seen_at : Option Nat
  read_at : Option Nat
deriving DecidableEq, Repr

/-- Source `AggregatedActivity.is_seen`: true iff `seen_at` is set. -/
def AggregatedActivity.is_seen (a : AggregatedActivity) : Bool :=
  a.seen_at.isSome

/-- Source `AggregatedActivity.is_read`: true iff `read_at` is set. -/
def AggregatedActivity.is_read (a : AggregatedActivity) : Bool :=
  a.read_at.isSome

/-- The inner pubsub message `dict(unread_count=count, unseen_count=count)`;
its JSON serialization is modelled structurally. -/
structure CountPayload where
  unread_count : Nat
  unseen_count : Nat
deriving DecidableEq, Repr

/-- The outer pubsub envelope `dict(channel=self.pubsub_key, data=count_data)`;
`channel` carries the user id, `data` the serialized inner message. -/
structure Envelope where
  channel : String
  data : CountPayload
deriving DecidableEq, Repr

/-- One `redis.publish(channel_name, message)` call: the redis channel the
message was broadcast on, and the (JSON-modelled) envelope. -/
structure PubMessage where
  pubsub_channel : String
  message : Envelope
deriving DecidableEq, Repr

/-- One structural batch operation issued against the aggregated timeline
store (`remove_many_aggregated` / `add_many_aggregated`). -/
inductive StoreOp where
  | removeMany (groups : List AggregatedActivity)
  | addMany (groups : List AggregatedActivity)
deriving DecidableEq, Repr

/-- The per-user state touched by a `NotificationFeed`: the user id the feed
was constructed with, the ordered timeline of aggregated groups (owned by the
external timeline store), the denormalized count key (`none` = key absent),
the log of pubsub publishes and the log of structural store batches. -/
structure FeedState where
  user_id : String
  timeline : List AggregatedActivity
  count_key : Option Nat
  published : List PubMessage
  store_log : List StoreOp
deriving DecidableEq, Repr

namespace NotificationFeed

/-- Source: `max_length = 99`. -/
def max_length : Nat := 99

/-- Source: `pubsub_main_channel = 'juggernaut'` — a class constant, the same
for every user. -/
def pubsub_main_channel : String := "juggernaut"

/-- Source `publish_count`: build `dict(unread_count=count, unseen_count=count)`,
wrap it in `dict(channel=self.pubsub_key, data=count_data)` where
`self.pubsub_key = user_id`, and publish the envelope on
`pubsub_main_channel`. -/
def publish_count (st : FeedState) (count : Nat) : FeedState :=
  { st with published :=
      st.published ++ [⟨pubsub_main_channel, ⟨st.user_id, ⟨count, count⟩⟩⟩] }

/-- Source `set_denormalized_count`: `redis.set(count_key, count)` (storing the
decimal text of `count`, modelled as `some count`) and then
`publish_count(count)`. -/
def set_denormalized_count (st : FeedState) (count : Nat) : FeedState :=
  publish_count { st with count_key := some count } count

/-- Source `get_denormalized_count`:
`result = redis.get(count_key) or 0; return int(result)`.  An absent key gives
`None`, hence `0`; a present key holds the decimal text of the stored count,
which `int` parses back. -/
def get_denormalized_count (st : FeedState) : Nat :=
  match st.count_key with
  | none => 0
  | some n => n

/-- Source `count_unseen`: when no list is supplied, read `self[:max_length]`
(the bounded range read of the feed, modelled from the spec as the first
`max_length` timeline entries); then count the entries with `is_seen()`
false. -/
def count_unseen (st : FeedState) (aggregated_activities : Option (List AggregatedActivity)) :
    Nat :=
  let l := match aggregated_activities with
    | none => st.timeline.take max_length
    | some given => given
  l.countP (fun a => !a.is_seen)

/-- Most-recent-first comparison on aggregated groups: `a` precedes `b` when
`a` is at least as recent as `b`. -/
def recent_first (a b : AggregatedActivity) : Prop :=
  b.updated_at ≤ a.updated_at

instance : DecidableRel recent_first := fun a b => Nat.decLe b.updated_at a.updated_at

/-- Modelled from the spec: `self.get_aggregator().rank(activities)` (the
aggregator is not under src/) re-ranks the candidate groups by recency,
most-recent-first. -/
def rank (activities : List AggregatedActivity) : List AggregatedActivity :=
  List.insertionSort recent_first activities

/-- Source `denormalize_count`: rank the candidates, truncate to
`max_length`, count the unseen among them, read the raw stored count and,
when it differs from the new count, call `set_denormalized_count`.  The source
compares `stored_count != str(count)` on the raw redis value: an absent key
(`None`) differs from every `str(count)`, and two canonical decimal texts are
equal exactly when the integers are, so the comparison is
`st.count_key ≠ some count`.  Returns the computed count. -/
def denormalize_count (st : FeedState) (activities : List AggregatedActivity) :
    Nat × FeedState :=
  let ranked := rank activities
  let current_activities := ranked.take max_length
  let count := count_unseen st (some current_activities)
  let stored_count := st.count_key
  if stored_count ≠ some count then
    (count, set_denormalized_count st count)
  else
    (count, st)

/-- Modelled from the spec: `remove_many_aggregated` (inherited from the base
feed, not under src/) — structural batch delete by group identity from the
aggregated timeline store. -/
def remove_many_aggregated (st : FeedState) (groups : List AggregatedActivity) : FeedState :=
  { st with
    timeline := st.timeline.filter (fun g => !(groups.any (fun o => o.group == g.group)))
    store_log := st.store_log ++ [StoreOp.removeMany groups] }

/-- Ordered insertion of a batch of groups into a ranked timeline,
most-recent-first. -/
def insert_ranked (groups : List AggregatedActivity) (timeline : List AggregatedActivity) :
    List AggregatedActivity :=
  groups.foldr (fun g acc => List.orderedInsert recent_first g acc) timeline

/-- Modelled from the spec: `add_many_aggregated` (inherited from the base
feed, not under src/) — structural batch insert into the aggregated timeline
store, which keeps the timeline in rank (recency) order. -/
def add_many_aggregated (st : FeedState) (groups : List AggregatedActivity) : FeedState :=
  { st with
    timeline := insert_ranked groups st.timeline
    store_log := st.store_log ++ [StoreOp.addMany groups] }

/-- The body of the per-group loop in `mark_all`: starting from `changed =
False`, stamp `seen_at = now` when `seen is True` and the group is not seen,
then stamp `read_at = now` when `read is True` and the group is not read;
return the (in-place mutated) group and the `changed` flag.  The source reads
`datetime.datetime.today()` separately for the two stamps; both are modelled
by the single instant `now`. -/
def mark_activity (seen read : Bool) (now : Nat) (a : AggregatedActivity) :
    AggregatedActivity × Bool :=
  let s := if seen && !a.is_seen then ({ a with seen_at := some now }, true) else (a, false)
  let r := if read && !s.1.is_read then ({ s.1 with read_at := some now }, true) else (s.1, false)
  (r.1, s.2 || r.2)

/-- Source `mark_all` (the body of its critical section): read the first
`max_length` groups, mutate each in place via the loop of `mark_activity`,
collect `update_dict[old_copy] = mutated` for the changed ones (each key is a
fresh `copy.deepcopy`, so no two entries collide; iteration order is modelled
as window order), batch-remove the old snapshots when there are any, then
batch-insert the new ones when there are any, denormalize the count over the
(mutated) window list, and return that list. -/
def mark_all (st : FeedState) (seen read : Bool) (now : Nat) :
    List AggregatedActivity × FeedState :=
  let aggregated_activities := st.timeline.take max_length
  let update_dict := aggregated_activities.filterMap (fun a =>
    let r := mark_activity seen read now a
    if r.2 then some (a, r.1) else none)
  let mutated := aggregated_activities.map (fun a => (mark_activity seen read now a).1)
  let to_delete := update_dict.map Prod.fst
  let to_add := update_dict.map Prod.snd
  let st1 := if to_delete.isEmpty then st else remove_many_aggregated st to_delete
  let st2 := if to_add.isEmpty then st1 else add_many_aggregated st1 to_add
  let r := denormalize_count st2 mutated
  (mutated, r.2)

/-- Source `add_many` (the body of its critical section): delegate to
`AggregatedFeed.add_many` and denormalize the count over the returned current
state.  Modelled from the spec: the base `AggregatedFeed.add_many` (not under
src/) structurally inserts the new groups into the ranked, bounded timeline
(`most-recent-first, bounded to a maximum count`) and returns the current
visible groups, over which the count is then recomputed (`over the current
global visible window, not just the newly added groups`). -/
def add_many (st : FeedState) (activities : List AggregatedActivity) :
    List AggregatedActivity × FeedState :=
  let st1 := add_many_aggregated st activities
  let st2 := { st1 with timeline := st1.timeline.take max_length }
  let current_activities := st2.timeline
  let r := denormalize_count st2 current_activities
  (current_activities, r.2)

/-- One public mutating operation of the engine. -/
inductive Op where
  | add_many_op (activities : List AggregatedActivity)
  | mark_all_op (seen read : Bool) (now : Nat)
deriving DecidableEq, Repr

/-- Run one operation, keeping the post-state. -/
def run (st : FeedState) : Op → FeedState
  | Op.add_many_op acts => (add_many st acts).2
  | Op.mark_all_op seen read now => (mark_all st seen read now).2

/-- Run a sequence of operations front to back. -/
def runAll (st : FeedState) : List Op → FeedState
  | [] => st
  | op :: rest => runAll (run st op) rest

/-- Well-formedness of a feed state: the timeline respects the feed bound and
group identity keys are pairwise distinct (the aggregator maintains one group
per grouping key). -/
def wf (st : FeedState) : Prop :=
  st.timeline.length ≤ max_length ∧ (st.timeline.map (fun a => a.group)).Nodup

instance (st : FeedState) : Decidable (wf st) := by
  unfold wf; infer_instance

/-- Precondition of one operation: groups added by `add_many` carry fresh,
pairwise distinct identity keys (the aggregation step merges into existing
groups before insertion; a freshly inserted group is a new logical group). -/
def ok_op (st : FeedState) : Op → Prop
  | Op.add_many_op acts =>
      (acts.map (fun a => a.group)).Nodup ∧
        ∀ a ∈ acts, ∀ b ∈ st.timeline, a.group ≠ b.group
  | Op.mark_all_op _ _ _ => True

instance (st : FeedState) (op : Op) : Decidable (ok_op st op) := by
  cases op <;> (unfold ok_op; infer_instance)

/-- An operation sequence is valid from a state when each operation satisfies
its precondition in the state it runs from. -/
def valid (st : FeedState) : List Op → Prop
  | [] => True
  | op :: rest => ok_op st op ∧ valid (run st op) rest

instance validDecidable (st : FeedState) : (ops : List Op) → Decidable (valid st ops)
  | [] => Decidable.isTrue trivial
  | op :: rest =>
      have : Decidable (valid (run st op) rest) := validDecidable (run st op) rest
      inferInstanceAs (Decidable (_ ∧ _))

/-- The number of unseen groups among the first `max_length` groups, in rank
order, of the current visible window. -/
def unseen_window_count (st : FeedState) : Nat :=
  ((rank st.timeline).take max_length).countP (fun a => !a.is_seen)

/-! ## Basic lemmas about the engine operations -/

theorem count_unseen_some (st : FeedState) (l : List AggregatedActivity) :
    count_unseen st (some l) = l.countP (fun a => !a.is_seen) := rfl

theorem denormalize_count_fst (st : FeedState) (acts : List AggregatedActivity) :
    (denormalize_count st acts).1
      = count_unseen st (some ((rank acts).take max_length)) := by
  by_cases h : st.count_key = some (count_unseen st (some ((rank acts).take max_length))) <;>
    simp [denormalize_count, h]

theorem denormalize_count_timeline (st : FeedState) (acts : List AggregatedActivity) :
    (denormalize_count st acts).2.timeline = st.timeline := by
  by_cases h : st.count_key = some (count_unseen st (some ((rank acts).take max_length))) <;>
    simp [denormalize_count, set_denormalized_count, publish_count, h]

theorem denormalize_count_user (st : FeedState) (acts : List AggregatedActivity) :
    (denormalize_count st acts).2.user_id = st.user_id := by
  by_cases h : st.count_key = some (count_unseen st (some ((rank acts).take max_length))) <;>
    simp [denormalize_count, set_denormalized_count, publish_count, h]

theorem denormalize_count_store_log (st : FeedState) (acts : List AggregatedActivity) :
    (denormalize_count st acts).2.store_log = st.store_log := by
  by_cases h : st.count_key = some (count_unseen st (some ((rank acts).take max_length))) <;>
    simp [denormalize_count, set_denormalized_count, publish_count, h]

theorem denormalize_count_key (st : FeedState) (acts : List AggregatedActivity) :
    (denormalize_count st acts).2.count_key
      = some (count_unseen st (some ((rank acts).take max_length))) := by
  by_cases h : st.count_key = some (count_unseen st (some ((rank acts).take max_length))) <;>
    simp [denormalize_count, set_denormalized_count, publish_count, h]

theorem denormalize_count_published (st : FeedState) (acts : List AggregatedActivity) :
    (denormalize_count st acts).2.published
      = st.published ++
          (if st.count_key = some (count_unseen st (some ((rank acts).take max_length)))
           then []
           else [⟨pubsub_main_channel,
                  ⟨st.user_id,
                   ⟨count_unseen st (some ((rank acts).take max_length)),
                    count_unseen st (some ((rank acts).take max_length))⟩⟩⟩]) := by
  by_cases h : st.count_key = some (count_unseen st (some ((rank acts).take max_length))) <;>
    simp [denormalize_count, set_denormalized_count, publish_count, h]

theorem mark_activity_group (seen read : Bool) (now : Nat) (a : AggregatedActivity) :
    (mark_activity seen read now a).1.group = a.group := by
  cases seen <;> cases read <;> rcases a with ⟨g, u, sa, ra⟩ <;> cases sa <;> cases ra <;> rfl

theorem mark_activity_updated (seen read : Bool) (now : Nat) (a : AggregatedActivity) :
    (mark_activity seen read now a).1.updated_at = a.updated_at := by
  cases seen <;> cases read <;> rcases a with ⟨g, u, sa, ra⟩ <;> cases sa <;> cases ra <;> rfl

theorem mark_activity_unchanged (seen read : Bool) (now : Nat) (a : AggregatedActivity)
    (h : (mark_activity seen read now a).2 = false) :
    (mark_activity seen read now a).1 = a := by
  cases seen <;> cases read <;> rcases a with ⟨g, u, sa, ra⟩ <;> cases sa <;> cases ra <;>
    first
      | rfl
      | exact absurd h (by simp [mark_activity, AggregatedActivity.is_seen,
          AggregatedActivity.is_read])

theorem filterMap_if_pair {α β : Type} (p : α → Bool) (f : α → β) (l : List α) :
    l.filterMap (fun a => if p a then some (a, f a) else none)
      = (l.filter p).map (fun a => (a, f a)) := by
  induction l with
  | nil => rfl
  | cons a t ih => by_cases h : p a <;> simp [List.filterMap_cons, List.filter_cons, h, ih]

theorem mark_all_fst (st : FeedState) (seen read : Bool) (now : Nat) :
    (mark_all st seen read now).1
      = (st.timeline.take max_length).map (fun a => (mark_activity seen read now a).1) := rfl

/-- Normal form of the post-state of `mark_all`: writing `olds` for the
changed groups of the window and `news` for their stamped versions, the
post-state is the state after removing `olds` and inserting `news` (when
there are any) and denormalizing the count over the stamped window. -/
theorem mark_all_snd (st : FeedState) (seen read : Bool) (now : Nat) :
    (mark_all st seen read now).2
      = (denormalize_count
           (if ((st.timeline.take max_length).filter
                  (fun a => (mark_activity seen read now a).2)).isEmpty
            then st
            else
              add_many_aggregated
                (remove_many_aggregated st
                  ((st.timeline.take max_length).filter
                    (fun a => (mark_activity seen read now a).2)))
                (((st.timeline.take max_length).filter
                    (fun a => (mark_activity seen read now a).2)).map
                  (fun a => (mark_activity seen read now a).1)))
           ((st.timeline.take max_length).map (fun a => (mark_activity seen read now a).1))).2 := by
  have hfm :
      (st.timeline.take max_length).filterMap (fun a =>
          let r := mark_activity seen read now a
          if r.2 then some (a, r.1) else none)
        = ((st.timeline.take max_length).filter (fun a => (mark_activity seen read now a).2)).map
            (fun a => (a, (mark_activity seen read now a).1)) :=
    filterMap_if_pair (fun a => (mark_activity seen read now a).2)
      (fun a => (mark_activity seen read now a).1) (st.timeline.take max_length)
  have hfst : (Prod.fst ∘ fun a : AggregatedActivity => (a, (mark_activity seen read now a).1))
      = fun a => a := rfl
  have hsnd : (Prod.snd ∘ fun a : AggregatedActivity => (a, (mark_activity seen read now a).1))
      = fun a => (mark_activity seen read now a).1 := rfl
  have hie : ∀ (l : List AggregatedActivity) (f : AggregatedActivity → AggregatedActivity),
      (l.map f).isEmpty = l.isEmpty := by
    intro l f; cases l <;> rfl
  simp only [mark_all]
  rw [hfm]
  simp only [List.map_map, hfst, hsnd, List.map_id', hie]
  by_cases h : ((st.timeline.take max_length).filter
      (fun a => (mark_activity seen read now a).2)).isEmpty <;>
    simp only [h, if_pos, if_neg, if_true, if_false, Bool.false_eq_true, not_false_iff]

theorem insert_ranked_perm (groups timeline : List AggregatedActivity) :
    (insert_ranked groups timeline).Perm (groups ++ timeline) := by
  induction groups with
  | nil => exact List.Perm.refl timeline
  | cons g t ih =>
      exact ((List.perm_orderedInsert recent_first g (insert_ranked t timeline)).trans
        (ih.cons g))

theorem mem_insert_ranked {x : AggregatedActivity} {groups timeline : List AggregatedActivity}
    (h : x ∈ insert_ranked groups timeline) : x ∈ groups ∨ x ∈ timeline := by
  have := (insert_ranked_perm groups timeline).mem_iff.mp h
  simpa using this

/-! ## The claims -/

/-- C2, counterexample: on a feed whose single window group is unseen,
`mark_all(seen=True)` returns a list whose group carries the post-transition
stamp `seen_at = 9`, not the `seen_at = none` it had before the stamping
step — the source mutates the window snapshots in place and returns them. -/
theorem mark_all_returns_stamped_group :
    ((mark_all ⟨"u", [⟨1, 5, none, none⟩], some 1, [], []⟩ true false 9).1.map
        (fun a => a.seen_at)) = [some 9]
    ∧ ((⟨"u", [⟨1, 5, none, none⟩], some 1, [], []⟩ : FeedState).timeline.map
        (fun a => a.seen_at)) = [none] := by
  constructor <;> rfl

/-- C2 (amended): `mark_all(seen, read)` returns the post-transition list: the
first `max_length` groups of the visible window with the stamping step already
applied to each (the operation mutates the snapshots it read in place and
returns that list). -/
theorem mark_all_returns_post_transition (st : FeedState) (seen read : Bool) (now : Nat) :
    (mark_all st seen read now).1
      = (st.timeline.take max_length).map (fun a => (mark_activity seen read now a).1) :=
  mark_all_fst st seen read now

/-- C3, counterexample: with the count key absent and a computed count of `0`,
the stored count read back as an integer is `0` (absence treated as zero), so
the claim says nothing is published; but `denormalize_count` compares the raw
stored value (`None`) with `str(0)`, finds them different, and publishes. -/
theorem denormalize_count_publishes_on_absent_key :
    (denormalize_count ⟨"u", [], none, [], []⟩ []).1 = 0
    ∧ get_denormalized_count ⟨"u", [], none, [], []⟩ = 0
    ∧ (denormalize_count ⟨"u", [], none, [], []⟩ []).2.published
        = [⟨pubsub_main_channel, ⟨"u", ⟨0, 0⟩⟩⟩] := by
  refine ⟨rfl, rfl, rfl⟩

/-- C3 (amended): in `denormalize_count`, a count is stored and published
exactly when the raw stored value under the count key differs from the
canonical representation of the newly computed count: when a count is stored,
publishing happens iff the stored integer differs, and when the key is absent
the comparison always differs (absence is not treated as zero), so a publish
always occurs. -/
theorem denormalize_count_publishes_iff_raw_value_differs
    (st : FeedState) (acts : List AggregatedActivity) :
    (denormalize_count st acts).2.published
      = st.published ++
          (if st.count_key = some (count_unseen st (some ((rank acts).take max_length)))
           then []
           else [⟨pubsub_main_channel,
                  ⟨st.user_id,
                   ⟨count_unseen st (some ((rank acts).take max_length)),
                    count_unseen st (some ((rank acts).take max_length))⟩⟩⟩]) :=
  denormalize_count_published st acts

/-- C6: with the same candidate activities and no intervening mutation, the
second of two consecutive `denormalize_count` calls leaves the state exactly
as the first left it (no cache write, no publish), so the pair publishes at
most one message in total. -/
theorem denormalize_count_idempotent (st : FeedState) (acts : List AggregatedActivity) :
    (denormalize_count (denormalize_count st acts).2 acts).2 = (denormalize_count st acts).2
    ∧ (denormalize_count st acts).2.published.length ≤ st.published.length + 1 := by
  constructor
  · have hkey := denormalize_count_key st acts
    generalize hst1 : (denormalize_count st acts).2 = st1 at hkey ⊢
    simp [denormalize_count, hkey, count_unseen]
  · rw [denormalize_count_published st acts]
    by_cases h : st.count_key = some (count_unseen st (some ((rank acts).take max_length))) <;>
      simp [h]

/-- C7: `publish_count(count)` broadcasts exactly one message, on the fixed
channel `pubsub_main_channel = "juggernaut"` shared by all users, whose
content is the envelope with `channel` the user id and `data` the serialized
inner message carrying `unread_count = count` and `unseen_count = count`;
nothing else in the state changes. -/
theorem publish_count_broadcasts_single_envelope (st : FeedState) (count : Nat) :
    (publish_count st count).published
      = st.published ++ [⟨pubsub_main_channel, ⟨st.user_id, ⟨count, count⟩⟩⟩]
    ∧ pubsub_main_channel = "juggernaut"
    ∧ (publish_count st count).timeline = st.timeline
    ∧ (publish_count st count).count_key = st.count_key
    ∧ (publish_count st count).store_log = st.store_log
    ∧ (publish_count st count).user_id = st.user_id :=
  ⟨rfl, rfl, rfl, rfl, rfl, rfl⟩

/-- C8: `get_denormalized_count` returns `0` without failing when the count
key has never been set, returns the stored integer when one is stored, and in
particular reads back the value just written by `set_denormalized_count`. -/
theorem get_denormalized_count_reads_stored_or_zero (st : FeedState) (n : Nat) :
    (st.count_key = none → get_denormalized_count st = 0)
    ∧ (st.count_key = some n → get_denormalized_count st = n)
    ∧ get_denormalized_count (set_denormalized_count st n) = n := by
  refine ⟨fun h => ?_, fun h => ?_, rfl⟩
  · simp [get_denormalized_count, h]
  · simp [get_denormalized_count, h]

/-- C8, witness. -/
theorem get_denormalized_count_reads_stored_or_zero_witness :
    get_denormalized_count ⟨"u", [], none, [], []⟩ = 0
    ∧ get_denormalized_count ⟨"u", [], some 7, [], []⟩ = 7
    ∧ get_denormalized_count (set_denormalized_count ⟨"u", [], none, [], []⟩ 5) = 5 :=
  ⟨(get_denormalized_count_reads_stored_or_zero ⟨"u", [], none, [], []⟩ 5).1 rfl,
   (get_denormalized_count_reads_stored_or_zero ⟨"u", [], some 7, [], []⟩ 7).2.1 rfl,
   (get_denormalized_count_reads_stored_or_zero ⟨"u", [], none, [], []⟩ 5).2.2⟩

/-- C9: `set_denormalized_count(count)` stores `count` under the count key and
then publishes that same count unconditionally — the published log always
grows by exactly the one message for `count`, with no change-detection, even
when the stored value was already `count`; the timeline and store log are
untouched. -/
theorem set_denormalized_count_stores_then_publishes (st : FeedState) (n : Nat) :
    (set_denormalized_count st n).count_key = some n
    ∧ (set_denormalized_count st n).published
        = st.published ++ [⟨pubsub_main_channel, ⟨st.user_id, ⟨n, n⟩⟩⟩]
    ∧ (set_denormalized_count st n).timeline = st.timeline
    ∧ (set_denormalized_count st n).store_log = st.store_log
    ∧ (set_denormalized_count st n).user_id = st.user_id :=
  ⟨rfl, rfl, rfl, rfl, rfl⟩

theorem add_many_snd (st : FeedState) (acts : List AggregatedActivity) :
    (add_many st acts).2
      = (denormalize_count
          { add_many_aggregated st acts with
              timeline := (add_many_aggregated st acts).timeline.take max_length }
          ((add_many_aggregated st acts).timeline.take max_length)).2 := rfl

/-- C4: forward-only transitions.  The stamping step of `mark_all` sets
`seen_at` exactly when `seen` is true and the group is not already seen, and
`read_at` exactly when `read` is true and the group is not already read, so it
never clears either timestamp; and every group snapshot in the timeline after
a `mark_all` or `add_many` is either an untouched previous snapshot, a stamped
previous snapshot, or (for `add_many`) one of the caller-supplied groups — no
engine operation ever un-marks a seen or read group, so a group once read is
never observed unread again. -/
theorem mark_all_forward_only_transitions :
    (∀ (seen read : Bool) (now : Nat) (a : AggregatedActivity),
        ((mark_activity seen read now a).1.seen_at
            = if seen && !a.is_seen then some now else a.seen_at)
        ∧ ((mark_activity seen read now a).1.read_at
            = if read && !a.is_read then some now else a.read_at)
        ∧ (a.is_seen = true → (mark_activity seen read now a).1.is_seen = true)
        ∧ (a.is_read = true → (mark_activity seen read now a).1.is_read = true))
    ∧ (∀ (st : FeedState) (seen read : Bool) (now : Nat) (x : AggregatedActivity),
        x ∈ (mark_all st seen read now).2.timeline →
          x ∈ st.timeline ∨ ∃ a ∈ st.timeline, x = (mark_activity seen read now a).1)
    ∧ (∀ (st : FeedState) (acts : List AggregatedActivity) (x : AggregatedActivity),
        x ∈ (add_many st acts).2.timeline → x ∈ st.timeline ∨ x ∈ acts) := by
  refine ⟨?_, ?_, ?_⟩
  · intro seen read now a
    cases seen <;> cases read <;> rcases a with ⟨g, u, sa, ra⟩ <;> cases sa <;> cases ra <;>
      simp [mark_activity, AggregatedActivity.is_seen, AggregatedActivity.is_read]
  · intro st seen read now x hx
    rw [mark_all_snd, denormalize_count_timeline] at hx
    by_cases h : ((st.timeline.take max_length).filter
        (fun a => (mark_activity seen read now a).2)).isEmpty
    · rw [if_pos h] at hx
      exact Or.inl hx
    · rw [if_neg h] at hx
      simp only [add_many_aggregated, remove_many_aggregated] at hx
      rcases mem_insert_ranked hx with hnew | hkept
      · rcases List.mem_map.mp hnew with ⟨a, ha, rfl⟩
        have ha2 := List.mem_filter.mp ha
        exact Or.inr ⟨a, List.take_subset max_length st.timeline ha2.1, rfl⟩
      · exact Or.inl (List.mem_of_mem_filter hkept)
  · intro st acts x hx
    rw [add_many_snd, denormalize_count_timeline] at hx
    simp only [add_many_aggregated] at hx
    have hx2 := List.take_subset max_length _ hx
    rcases mem_insert_ranked hx2 with hnew | hold
    · exact Or.inr hnew
    · exact Or.inl hold

/-- C4, witness: on an already seen-and-read group the stamping step keeps
both marks set, and the single group of a concrete feed survives a
`mark_all(seen=True)` either untouched or as a stamped old snapshot. -/
theorem mark_all_forward_only_transitions_witness :
    ((mark_activity true true 3 ⟨1, 5, some 2, some 2⟩).1.is_seen = true)
    ∧ ((mark_activity true true 3 ⟨1, 5, some 2, some 2⟩).1.is_read = true)
    ∧ (⟨1, 10, some 9, none⟩
          ∈ (⟨"u", [⟨1, 10, none, none⟩], some 1, [], []⟩ : FeedState).timeline
        ∨ ∃ a ∈ (⟨"u", [⟨1, 10, none, none⟩], some 1, [], []⟩ : FeedState).timeline,
            (⟨1, 10, some 9, none⟩ : AggregatedActivity) = (mark_activity true false 9 a).1) :=
  ⟨(mark_all_forward_only_transitions.1 true true 3 ⟨1, 5, some 2, some 2⟩).2.2.1 (by decide),
   (mark_all_forward_only_transitions.1 true true 3 ⟨1, 5, some 2, some 2⟩).2.2.2 (by decide),
   mark_all_forward_only_transitions.2.1 ⟨"u", [⟨1, 10, none, none⟩], some 1, [], []⟩
     true false 9 ⟨1, 10, some 9, none⟩ (by decide)⟩

/-- C5: a group enters the batch-removal set and the batch-insertion set of
`mark_all` exactly when its stamping step changed at least one timestamp: the
store operations issued are a removal of precisely the changed old snapshots
followed by an insertion of precisely their stamped versions, and when no
group changed, no removal and no insertion is issued at all. -/
theorem mark_all_no_spurious_reinsert (st : FeedState) (seen read : Bool) (now : Nat) :
    ((mark_all st seen read now).2.store_log
      = st.store_log ++
          (if ((st.timeline.take max_length).filter
                 (fun a => (mark_activity seen read now a).2)).isEmpty
           then []
           else
             [StoreOp.removeMany
                ((st.timeline.take max_length).filter
                  (fun a => (mark_activity seen read now a).2)),
              StoreOp.addMany
                (((st.timeline.take max_length).filter
                    (fun a => (mark_activity seen read now a).2)).map
                  (fun a => (mark_activity seen read now a).1))]))
    ∧ (∀ a ∈ st.timeline.take max_length,
        (a ∈ (st.timeline.take max_length).filter (fun a => (mark_activity seen read now a).2)
          ↔ (mark_activity seen read now a).2 = true)) := by
  constructor
  · rw [mark_all_snd, denormalize_count_store_log]
    by_cases h : ((st.timeline.take max_length).filter
        (fun a => (mark_activity seen read now a).2)).isEmpty
    · rw [if_pos h, if_pos h]
      simp
    · rw [if_neg h, if_neg h]
      simp [add_many_aggregated, remove_many_aggregated]
  · intro a ha
    simp [List.mem_filter, ha]

/-- C5, witness: one unseen group and one already-seen group; only the unseen
group is removed and re-inserted (stamped), and membership in the removal
batch matches the changed flag for both. -/
theorem mark_all_no_spurious_reinsert_witness :
    ((mark_all ⟨"u", [⟨1, 10, none, none⟩, ⟨2, 9, some 4, none⟩], some 1, [], []⟩
        true false 9).2.store_log
      = [StoreOp.removeMany [⟨1, 10, none, none⟩],
         StoreOp.addMany [⟨1, 10, some 9, none⟩]])
    ∧ ((⟨1, 10, none, none⟩ : AggregatedActivity)
          ∈ (([⟨1, 10, none, none⟩, ⟨2, 9, some 4, none⟩] :
                List AggregatedActivity).take max_length).filter
              (fun a => (mark_activity true false 9 a).2)
        ↔ (mark_activity true false 9 (⟨1, 10, none, none⟩ : AggregatedActivity)).2 = true) := by
  refine ⟨?_, ?_⟩
  · have h := (mark_all_no_spurious_reinsert
      ⟨"u", [⟨1, 10, none, none⟩, ⟨2, 9, some 4, none⟩], some 1, [], []⟩ true false 9).1
    rw [h]
    decide
  · exact (mark_all_no_spurious_reinsert
      ⟨"u", [⟨1, 10, none, none⟩, ⟨2, 9, some 4, none⟩], some 1, [], []⟩ true false 9).2
      ⟨1, 10, none, none⟩ (by decide)

theorem get_of_key_some {st : FeedState} {n : Nat} (h : st.count_key = some n) :
    get_denormalized_count st = n := by
  simp [get_denormalized_count, h]

theorem rank_length (l : List AggregatedActivity) : (rank l).length = l.length :=
  (List.perm_insertionSort recent_first l).length_eq

theorem rank_countP (l : List AggregatedActivity) (p : AggregatedActivity → Bool) :
    (rank l).countP p = l.countP p :=
  (List.perm_insertionSort recent_first l).countP_eq p

theorem countP_rank_take_of_le {l : List AggregatedActivity} (h : l.length ≤ max_length)
    (p : AggregatedActivity → Bool) :
    ((rank l).take max_length).countP p = l.countP p := by
  rw [List.take_of_length_le (by rw [rank_length]; exact h), rank_countP]

theorem map_stamped_of_no_change {seen read : Bool} {now : Nat}
    {l : List AggregatedActivity} (h : ∀ a ∈ l, (mark_activity seen read now a).2 = false) :
    l.map (fun a => (mark_activity seen read now a).1) = l := by
  calc l.map (fun a => (mark_activity seen read now a).1)
      = l.map (fun a => a) :=
        List.map_congr_left (fun a ha => mark_activity_unchanged seen read now a (h a ha))
    _ = l := List.map_id' l

/-- After one `mark_all` on a well-formed state, the state is still
well-formed and the stored count equals the unseen count of the first
`max_length` groups, in rank order, of the visible window. -/
theorem mark_all_step (st : FeedState) (seen read : Bool) (now : Nat) (h : wf st) :
    wf (mark_all st seen read now).2
    ∧ get_denormalized_count (mark_all st seen read now).2
        = unseen_window_count (mark_all st seen read now).2 := by
  obtain ⟨hlen, hnd⟩ := h
  have hw : st.timeline.take max_length = st.timeline := List.take_of_length_le hlen
  rw [mark_all_snd, hw]
  by_cases hem : (st.timeline.filter (fun a => (mark_activity seen read now a).2)).isEmpty
  · rw [if_pos hem]
    have hall : ∀ a ∈ st.timeline, (mark_activity seen read now a).2 = false := by
      intro a ha
      have h2 := List.filter_eq_nil_iff.mp (List.isEmpty_iff.mp hem) a ha
      simpa using h2
    rw [map_stamped_of_no_change hall]
    constructor
    · unfold wf
      rw [denormalize_count_timeline]
      exact ⟨hlen, hnd⟩
    · rw [get_of_key_some (denormalize_count_key _ _)]
      unfold unseen_window_count
      rw [denormalize_count_timeline, count_unseen_some]
  · rw [if_neg hem]
    have hfeq : st.timeline.filter
        (fun g => !((st.timeline.filter (fun a => (mark_activity seen read now a).2)).any
            (fun o => o.group == g.group)))
        = st.timeline.filter (fun g => !(mark_activity seen read now g).2) := by
      apply List.filter_congr
      intro g hg
      have hany : ((st.timeline.filter (fun a => (mark_activity seen read now a).2)).any
          (fun o => o.group == g.group)) = (mark_activity seen read now g).2 := by
        cases hc : (mark_activity seen read now g).2 with
        | true =>
            exact List.any_eq_true.mpr ⟨g, List.mem_filter.mpr ⟨hg, hc⟩, by simp⟩
        | false =>
            cases hany : (st.timeline.filter
                (fun a => (mark_activity seen read now a).2)).any
                (fun o => o.group == g.group) with
            | false => rfl
            | true =>
                obtain ⟨o, ho, hog⟩ := List.any_eq_true.mp hany
                have hcho := (List.mem_filter.mp ho).2
                have hoeq : o = g :=
                  List.inj_on_of_nodup_map hnd (List.mem_of_mem_filter ho) hg
                    (by simpa using hog)
                rw [hoeq] at hcho
                rw [hcho] at hc
                cases hc
      rw [hany]
    have hst2tl : (add_many_aggregated
          (remove_many_aggregated st
            (st.timeline.filter (fun a => (mark_activity seen read now a).2)))
          ((st.timeline.filter (fun a => (mark_activity seen read now a).2)).map
            (fun a => (mark_activity seen read now a).1))).timeline
        = insert_ranked
            ((st.timeline.filter (fun a => (mark_activity seen read now a).2)).map
              (fun a => (mark_activity seen read now a).1))
            (st.timeline.filter (fun g => !(mark_activity seen read now g).2)) := by
      simp only [add_many_aggregated, remove_many_aggregated]
      rw [hfeq]
    have hP1 := insert_ranked_perm
      ((st.timeline.filter (fun a => (mark_activity seen read now a).2)).map
        (fun a => (mark_activity seen read now a).1))
      (st.timeline.filter (fun g => !(mark_activity seen read now g).2))
    have hkeptid : (st.timeline.filter (fun g => !(mark_activity seen read now g).2)).map
        (fun a => (mark_activity seen read now a).1)
        = st.timeline.filter (fun g => !(mark_activity seen read now g).2) := by
      apply map_stamped_of_no_change
      intro a ha
      have := (List.mem_filter.mp ha).2
      simpa using this
    have hfa := List.filter_append_perm (fun a => (mark_activity seen read now a).2) st.timeline
    have hP2 : (st.timeline.map (fun a => (mark_activity seen read now a).1)).Perm
        ((st.timeline.filter (fun a => (mark_activity seen read now a).2)).map
            (fun a => (mark_activity seen read now a).1)
          ++ st.timeline.filter (fun g => !(mark_activity seen read now g).2)) := by
      have hmap := (hfa.symm).map (fun a => (mark_activity seen read now a).1)
      rw [List.map_append, hkeptid] at hmap
      exact hmap
    have hlmut : (st.timeline.map (fun a => (mark_activity seen read now a).1)).length
        ≤ max_length := by
      rw [List.length_map]; exact hlen
    have hlst2 : (insert_ranked
          ((st.timeline.filter (fun a => (mark_activity seen read now a).2)).map
            (fun a => (mark_activity seen read now a).1))
          (st.timeline.filter (fun g => !(mark_activity seen read now g).2))).length
        ≤ max_length := by
      rw [hP1.length_eq, ← hP2.length_eq]
      exact hlmut
    have hidseq : ((st.timeline.filter (fun a => (mark_activity seen read now a).2)).map
          (fun a => (mark_activity seen read now a).1)).map (fun a => a.group)
        = (st.timeline.filter (fun a => (mark_activity seen read now a).2)).map
            (fun a => a.group) := by
      rw [List.map_map]
      exact List.map_congr_left (fun a _ => mark_activity_group seen read now a)
    constructor
    · unfold wf
      rw [denormalize_count_timeline, hst2tl]
      refine ⟨hlst2, ?_⟩
      have hidperm : ((insert_ranked
            ((st.timeline.filter (fun a => (mark_activity seen read now a).2)).map
              (fun a => (mark_activity seen read now a).1))
            (st.timeline.filter (fun g => !(mark_activity seen read now g).2))).map
          (fun a => a.group)).Perm (st.timeline.map (fun a => a.group)) := by
        have h1 := hP1.map (fun a => a.group)
        rw [List.map_append, hidseq, ← List.map_append] at h1
        exact h1.trans ((hfa.map (fun a => a.group)))
      exact hidperm.symm.nodup hnd
    · rw [get_of_key_some (denormalize_count_key _ _)]
      unfold unseen_window_count
      rw [denormalize_count_timeline, count_unseen_some, hst2tl]
      rw [countP_rank_take_of_le hlmut, countP_rank_take_of_le hlst2]
      exact (hP2.countP_eq _).trans (hP1.countP_eq _).symm

/-- After one `add_many` on a well-formed state with fresh, pairwise distinct
group keys, the state is still well-formed and the stored count equals the
unseen count of the first `max_length` groups, in rank order, of the visible
window. -/
theorem add_many_step (st : FeedState) (acts : List AggregatedActivity) (h : wf st)
    (hok : (acts.map (fun a => a.group)).Nodup ∧
      ∀ a ∈ acts, ∀ b ∈ st.timeline, a.group ≠ b.group) :
    wf (add_many st acts).2
    ∧ get_denormalized_count (add_many st acts).2
        = unseen_window_count (add_many st acts).2 := by
  obtain ⟨hlen, hnd⟩ := h
  rw [add_many_snd]
  constructor
  · unfold wf
    rw [denormalize_count_timeline]
    refine ⟨List.length_take_le _ _, ?_⟩
    have hperm := insert_ranked_perm acts st.timeline
    have hids : ((insert_ranked acts st.timeline).map (fun a => a.group)).Perm
        ((acts ++ st.timeline).map (fun a => a.group)) := hperm.map _
    have hnodup : ((acts ++ st.timeline).map (fun a => a.group)).Nodup := by
      rw [List.map_append]
      refine List.nodup_append.mpr ⟨hok.1, hnd, ?_⟩
      intro x hx hx2
      obtain ⟨a, ha, rfl⟩ := List.mem_map.mp hx
      obtain ⟨b, hb, hab⟩ := List.mem_map.mp hx2
      exact hok.2 a ha b hb hab.symm
    have hnodup2 : ((insert_ranked acts st.timeline).map (fun a => a.group)).Nodup :=
      hids.symm.nodup hnodup
    simp only [add_many_aggregated]
    exact hnodup2.sublist ((List.take_sublist _ _).map _)
  · rw [get_of_key_some (denormalize_count_key _ _)]
    unfold unseen_window_count
    rw [denormalize_count_timeline, count_unseen_some]

theorem run_step (st : FeedState) (op : Op) (h : wf st) (hok : ok_op st op) :
    wf (run st op)
    ∧ get_denormalized_count (run st op) = unseen_window_count (run st op) := by
  cases op with
  | add_many_op acts => exact add_many_step st acts h hok
  | mark_all_op seen read now => exact mark_all_step st seen read now h

theorem runAll_step (ops : List Op) (st : FeedState) (h : wf st) (hv : valid st ops) :
    wf (runAll st ops)
    ∧ (ops ≠ [] →
        get_denormalized_count (runAll st ops) = unseen_window_count (runAll st ops)) := by
  induction ops generalizing st with
  | nil => exact ⟨h, fun hc => absurd rfl hc⟩
  | cons op rest ih =>
      obtain ⟨hok, hrest⟩ := hv
      have hstep := run_step st op h hok
      cases rest with
      | nil => exact ⟨hstep.1, fun _ => hstep.2⟩
      | cons op2 rest2 =>
          have := ih (run st op) hstep.1 hrest
          exact ⟨this.1, fun _ => this.2 (by simp)⟩

/-- C1: count correctness.  For every sequence of `add_many` / `mark_all`
operations that completes, run from a well-formed state (timeline within the
feed bound, group keys pairwise distinct) with `add_many` batches carrying
fresh distinct group keys, immediately afterwards `get_denormalized_count()`
equals the number of groups with `is_seen()` false among the first
`max_length` groups, in rank order, of the current visible window. -/
theorem count_correctness (st : FeedState) (ops : List Op) (h : wf st)
    (hv : valid st ops) (hne : ops ≠ []) :
    get_denormalized_count (runAll st ops) = unseen_window_count (runAll st ops) :=
  (runAll_step ops st h hv).2 hne

/-- C1, witness: from an empty feed, add two unseen groups and then mark all
as seen; the stored count then matches the window count. -/
theorem count_correctness_witness :
    wf ⟨"u", [], none, [], []⟩
    ∧ valid ⟨"u", [], none, [], []⟩
        [Op.add_many_op [⟨1, 10, none, none⟩, ⟨2, 11, none, none⟩],
         Op.mark_all_op true false 7]
    ∧ get_denormalized_count
          (runAll ⟨"u", [], none, [], []⟩
            [Op.add_many_op [⟨1, 10, none, none⟩, ⟨2, 11, none, none⟩],
             Op.mark_all_op true false 7])
        = unseen_window_count
            (runAll ⟨"u", [], none, [], []⟩
              [Op.add_many_op [⟨1, 10, none, none⟩, ⟨2, 11, none, none⟩],
               Op.mark_all_op true false 7]) :=
  ⟨by decide, by decide,
   count_correctness ⟨"u", [], none, [], []⟩
     [Op.add_many_op [⟨1, 10, none, none⟩, ⟨2, 11, none, none⟩],
      Op.mark_all_op true false 7]
     (by decide) (by decide) (by simp)⟩

/-- C10: when an explicit list of aggregated activities is supplied,
`count_unseen` counts the groups with `is_seen()` false over the entire
supplied list with no truncation to `max_length`; truncation applies only on
the default path, where the feed reads its own window `self[:max_length]`. -/
theorem count_unseen_counts_whole_supplied_list (st : FeedState)
    (l : List AggregatedActivity) :
    count_unseen st (some l) = (l.filter (fun a => !a.is_seen)).length
    ∧ count_unseen st none
        = ((st.timeline.take max_length).filter (fun a => !a.is_seen)).length := by
  constructor <;> simp [count_unseen, List.countP_eq_length_filter]

end NotificationFeed
